import Mathlib

/-!
Verification development for the VoiceForge recommendation engine.

The engine is embedded shallowly: each JavaScript/TypeScript function of the
source is translated to an executable Lean definition over `List Char`
(for strings) and `ℚ` (for JS numbers, which on the data at hand are exact
decimals, so rational arithmetic models the source computations exactly).
JS `Array.prototype.sort` (a stable sort) is modelled by a stable insertion
sort; since stable sorts agree on their output, this is a faithful model.
-/

namespace VoiceForge

/-- JS whitespace class `\s` (WhiteSpace + LineTerminator code points). -/
def isWSChar (c : Char) : Bool :=
  c.toNat = 0x20 || c.toNat = 0x9 || c.toNat = 0xA || c.toNat = 0xB ||
  c.toNat = 0xC || c.toNat = 0xD || c.toNat = 0xA0 || c.toNat = 0x1680 ||
  (0x2000 ≤ c.toNat && c.toNat ≤ 0x200A) || c.toNat = 0x2028 ||
  c.toNat = 0x2029 || c.toNat = 0x202F || c.toNat = 0x205F ||
  c.toNat = 0x3000 || c.toNat = 0xFEFF

/-- ASCII lower-casing of one character, as `String.prototype.toLowerCase`
acts on the ASCII range (multi-character Unicode case mappings are outside
the modelled string space). -/
def lowerChar (c : Char) : Char :=
  if 'A' ≤ c ∧ c ≤ 'Z' then Char.ofNat (c.toNat + 32) else c

/-- Is the character in `[a-z0-9]`? -/
def isLowerAlnum (c : Char) : Bool :=
  ('a' ≤ c && c ≤ 'z') || ('0' ≤ c && c ≤ '9')

/-- Maximal `[a-z0-9]` runs of the lower-cased character list, in order. -/
def alnumTokens : List Char → List Char → List (List Char)
  | [], cur => if cur.isEmpty then [] else [cur.reverse]
  | c :: rest, cur =>
    let c' := lowerChar c
    if isLowerAlnum c' then alnumTokens rest (c' :: cur)
    else if cur.isEmpty then alnumTokens rest []
    else cur.reverse :: alnumTokens rest []

/-- `normalizeTerm` of the source:
`value.toLowerCase().replace(nonAlnumRuns, " ").trim().replace(wsRuns, " ")`,
i.e. the lower-cased alphanumeric runs joined by single spaces. -/
def normChars (cs : List Char) : List Char :=
  List.intercalate [' '] (alnumTokens cs [])

def normalizeTerm (s : String) : String :=
  String.mk (normChars s.data)

/-- `trim` on character lists (JS `String.prototype.trim`). -/
def trimChars (cs : List Char) : List Char :=
  ((cs.dropWhile isWSChar).reverse.dropWhile isWSChar).reverse

/-- Split a trimmed character list on whitespace runs (JS `split(/\s+/)` on a
trimmed string yields exactly the maximal non-whitespace runs). -/
def wsWords : List Char → List Char → List (List Char)
  | [], cur => if cur.isEmpty then [] else [cur.reverse]
  | c :: rest, cur =>
    if isWSChar c then
      if cur.isEmpty then wsWords rest [] else cur.reverse :: wsWords rest []
    else wsWords rest (c :: cur)

/-- Join character-list words with single spaces (JS `Array.join(" ")`). -/
def joinSpace (ws : List (List Char)) : List Char :=
  List.intercalate [' '] ws

/-- Hyphenate: replace the single spaces of a normalized term by `-`
(the source's `.replace(/\s+/g, "-")` applied to an already normalized
string, used by `normalizeUseCase` and `normalizeModel`). -/
def hyphenate (cs : List Char) : List Char :=
  cs.map (fun c => if c = ' ' then '-' else c)

def normalizeUseCase (s : String) : String :=
  String.mk (hyphenate (normChars s.data))

def normalizeModel (s : String) : String :=
  String.mk (hyphenate (normChars s.data))

def normalizeProviderInput (s : String) : String := normalizeTerm s

/-- ASCII lower-casing of a whole string (JS `toLowerCase`). -/
def lowerStr (s : String) : String := String.mk (s.data.map lowerChar)

/-- `trim` at the string level. -/
def trimStr (s : String) : String := String.mk (trimChars s.data)

/-! ## Static catalogs (src `PROVIDER_ALIASES`, `LANGUAGE_ALIASES`, …) -/

def MAX_RESULTS : ℤ := 10
def MIN_PROVIDER_INPUT_LENGTH : Nat := 3
def MIN_LANGUAGE_PREFIX_LENGTH : Nat := 3

/-- `PROVIDER_ALIASES`, in source (insertion) order. -/
def PROVIDER_ALIASES : List (String × List String) :=
  [ ("Deepgram", ["deepgram", "deep gram"]),
    ("AssemblyAI", ["assemblyai", "assembly ai", "assembly"]),
    ("OpenAI", ["openai", "open ai", "open-ai", "gpt", "chatgpt"]),
    ("Speechmatics", ["speechmatics", "speech-matics", "speech matics"]),
    ("Google", ["google", "gemini"]),
    ("Anthropic", ["anthropic", "claude", "claude ai"]),
    ("Groq", ["groq", "llama", "llama 4", "llama-4", "llama4"]),
    ("Cartesia", ["cartesia", "cartes ia"]),
    ("ElevenLabs", ["elevenlabs", "eleven labs", "eleven", "eleven-labs"]),
    ("PlayHT", ["playht", "play ht", "play-ht"]),
    ("Rime", ["rime", "rime ai"]) ]

def ALL_PROVIDERS : List String := PROVIDER_ALIASES.map Prod.fst

def LANGUAGE_ALIASES : List (String × List String) :=
  [ ("english", ["en", "eng", "american", "us", "gb"]),
    ("thai", ["th", "thai", "thai language"]),
    ("vietnamese", ["vi", "viet", "vietnamese"]),
    ("indonesian", ["id", "ind"]),
    ("filipino", ["tl", "filipino", "tagalog", "ph"]),
    ("japanese", ["ja", "jp", "nihongo"]),
    ("korean", ["ko", "kr", "hangul", "korean"]),
    ("cantonese", ["zh-yue", "cantonese", "kantonees", "cn-cant"]),
    ("mandarin", ["zh", "zh-cn", "zh-hans", "mandarin"]),
    ("malay", ["ms", "ms-my", "malay"]) ]

def USE_CASE_ALIASES : List (String × List String) :=
  [ ("customer-support", ["customer support", "support", "cs", "customer"]),
    ("sales", ["sale", "sales", "revenue"]),
    ("debt-collections", ["debt collection", "collections", "collection", "collections team"]),
    ("scheduling", ["schedule", "calendar", "appointments", "booking"]),
    ("healthcare-triage", ["healthcare", "medical", "triage", "doctor", "clinic"]),
    ("insurance-claims", ["claims", "insurance", "insurance claim", "claims ops"]),
    ("lead-qualification", ["lead qualify", "leads", "qualification", "lead"]),
    ("appointment-reminders", ["reminder", "appointment", "notification", "nudge"]),
    ("banking-faq", ["banking", "faq", "finance", "compliance"]),
    ("recruitment-screening", ["recruiting", "recruitment", "screening", "hiring", "interviews"]) ]

/-- `SUPPORTED_LANGUAGES` from the data module. -/
def SUPPORTED_LANGUAGES : List String :=
  ["English", "Thai", "Vietnamese", "Indonesian", "Filipino",
   "Japanese", "Korean", "Cantonese", "Mandarin", "Malay"]

/-! ## Provider alias catalog and resolution -/

structure AliasEntry where
  provider : String
  aliasText : String
deriving DecidableEq, Repr

/-- `[...new Set(xs)]`: deduplicate keeping first occurrences. -/
def dedupFirst (l : List String) : List String :=
  l.foldl (fun acc s => if s ∈ acc then acc else acc ++ [s]) []

/-- Stable insertion (descending by alias length): an element is placed
before the first element whose alias is no longer than its own, so
equal-length entries keep their original relative order — exactly the
behavior of JS stable `sort((a, b) => b.aliasText.length - a.aliasText.length)`. -/
def insertByLenDesc (x : AliasEntry) : List AliasEntry → List AliasEntry
  | [] => [x]
  | y :: ys =>
    if y.aliasText.length ≤ x.aliasText.length then x :: y :: ys
    else y :: insertByLenDesc x ys

def sortByLenDesc (l : List AliasEntry) : List AliasEntry :=
  l.foldr insertByLenDesc []

/-- `PROVIDER_ALIAS_CATALOG`: every (provider, normalized alias) pair —
the canonical name itself included — deduplicated, non-empty, sorted by
alias length descending (stable). -/
def PROVIDER_ALIAS_CATALOG : List AliasEntry :=
  sortByLenDesc <| PROVIDER_ALIASES.flatMap fun pa =>
    ((dedupFirst ((pa.1 :: pa.2).map normalizeProviderInput)).filter
      (fun a => a ≠ "")).map fun a => { provider := pa.1, aliasText := a }

structure ProviderMatch where
  provider : String
  matchedAlias : String
deriving DecidableEq, Repr

/-- One candidate test of the `resolveProviderMatch` scan loop. -/
def candidateCheck (normalized : String) (c : AliasEntry) : Option ProviderMatch :=
  if c.aliasText.length < MIN_PROVIDER_INPUT_LENGTH then none
  else if c.aliasText = normalized ∨
          normalized.data.isPrefixOf c.aliasText.data ∨
          (c.aliasText.data ++ [' ']).isPrefixOf normalized.data then
    some { provider := c.provider, matchedAlias := c.aliasText }
  else none

/-- `resolveProviderMatch` of the source. Note the second disjunct is the
source's `candidate.alias.startsWith(normalized)`: the *normalized input*
is a prefix of the *alias*. -/
def resolveProviderMatch (input : String) : Option ProviderMatch :=
  let normalized := normalizeProviderInput input
  if normalized = "" ∨ normalized.length < MIN_PROVIDER_INPUT_LENGTH then none
  else PROVIDER_ALIAS_CATALOG.findSome? (candidateCheck normalized)

def resolveProvider (input : String) : Option String :=
  (resolveProviderMatch input).map (·.provider)

/-! ## Language resolution -/

/-- Alias list of a canonical language key (`LANGUAGE_ALIASES[lang]`,
`[]` when absent — the source's `?? []`). -/
def langAliases (k : String) : List String :=
  ((LANGUAGE_ALIASES.find? (fun p => p.1 = k)).map Prod.snd).getD []

/-- First stage of `resolveLanguage`: direct match against the canonical
supported-language spellings. -/
def directLanguage (normalized : String) : Option String :=
  SUPPORTED_LANGUAGES.find? (fun lang => normalizeTerm lang = normalized)

/-- Second stage: find a canonical alias-table key one of whose aliases
normalizes to the input; return the canonically-spelled supported language
for that key (falling back to the key itself, as the source's `|| canonical`). -/
def aliasLanguage (normalized : String) : Option String :=
  ((LANGUAGE_ALIASES.map Prod.fst).find? (fun lang =>
      (langAliases lang).any (fun a => normalized = normalizeTerm a))).map
    (fun canonical =>
      (SUPPORTED_LANGUAGES.find? (fun lang => normalizeTerm lang = canonical)).getD canonical)

/-- Third stage: two-way prefix matching, only for normalized inputs of
length at least `MIN_LANGUAGE_PREFIX_LENGTH`. -/
def stemLanguage (normalized : String) : Option String :=
  if MIN_LANGUAGE_PREFIX_LENGTH ≤ normalized.length then
    SUPPORTED_LANGUAGES.find? (fun lang =>
      normalized.data.isPrefixOf (normalizeTerm lang).data ∨
      (normalizeTerm lang).data.isPrefixOf normalized.data)
  else none

/-- `resolveLanguage` of the source: empty input fails, then the three
stages in order. -/
def resolveLanguage (input : String) : Option String :=
  let normalized := normalizeTerm input
  if normalized = "" then none
  else match directLanguage normalized with
    | some direct => some direct
    | none => match aliasLanguage normalized with
      | some canonical => some canonical
      | none => stemLanguage normalized

/-- Contiguous-substring test (JS `String.prototype.includes`):
`containsSub hay needle` is true iff `needle` occurs in `hay`. -/
def containsSub : List Char → List Char → Bool
  | hay, needle =>
    match hay with
    | [] => needle.isEmpty
    | _ :: t => needle.isPrefixOf hay || containsSub t needle

/-- `getLanguageSuggestions` of the source: substring overlap against
canonical spellings and against alias tables, first five, deduplicated. -/
def getLanguageSuggestions (input : String) : List String :=
  let normalized := normalizeTerm input
  if normalized = "" then SUPPORTED_LANGUAGES.take 5
  else
    let exact := SUPPORTED_LANGUAGES.filter (fun lang =>
      containsSub (normalizeTerm lang).data normalized.data ∨
      containsSub normalized.data (normalizeTerm lang).data)
    let byAlias := SUPPORTED_LANGUAGES.filter (fun lang =>
      (langAliases (normalizeTerm lang)).any (fun a =>
        containsSub (normalizeTerm a).data normalized.data))
    (dedupFirst (exact ++ byAlias)).take 5

/-! ## Use-case resolution and weights -/

structure ScoreWeights where
  latency : ℚ
  quality : ℚ
  cost : ℚ
deriving DecidableEq, Repr

def DEFAULT_WEIGHTS : ScoreWeights := { latency := 70, quality := 70, cost := 60 }

/-- `USE_CASE_PRIORITIES` from the data module. -/
def USE_CASE_PRIORITIES : List (String × ScoreWeights) :=
  [ ("debt-collections", { latency := 80, quality := 60, cost := 70 }),
    ("sales", { latency := 70, quality := 80, cost := 50 }),
    ("customer-support", { latency := 60, quality := 90, cost := 60 }),
    ("scheduling", { latency := 90, quality := 40, cost := 80 }),
    ("insurance-claims", { latency := 50, quality := 95, cost := 40 }),
    ("lead-qualification", { latency := 75, quality := 75, cost := 55 }),
    ("appointment-reminders", { latency := 85, quality := 50, cost := 75 }),
    ("healthcare-triage", { latency := 55, quality := 95, cost := 45 }),
    ("banking-faq", { latency := 60, quality := 90, cost := 60 }),
    ("recruitment-screening", { latency := 65, quality := 85, cost := 50 }) ]

def useCasePriority (k : String) : Option ScoreWeights :=
  (USE_CASE_PRIORITIES.find? (fun p => p.1 = k)).map Prod.snd

/-- The alias search of `resolveUseCase`: the first `USE_CASE_ALIASES`
entry whose key equals the normalized input or one of whose normalized
aliases matches the input exactly or by two-way prefix. -/
def useCaseAliasHit (normalized : String) : Option String :=
  (USE_CASE_ALIASES.find? (fun p =>
      p.1 = normalized ∨
      p.2.any (fun a =>
        let na := normalizeUseCase a
        na = normalized ∨
        normalized.data.isPrefixOf na.data ∨
        na.data.isPrefixOf normalized.data))).map Prod.fst

/-- `resolveUseCase` of the source: exact priority key first, then alias
search, otherwise the normalized input is passed through. -/
def resolveUseCase (input : String) : String :=
  let normalized := normalizeUseCase input
  if (useCasePriority normalized).isSome then normalized
  else match useCaseAliasHit normalized with
    | some k => k
    | none => normalized

/-- `getUseCaseWeights`: configured priorities of the resolved use case,
falling back to `DEFAULT_WEIGHTS`. -/
def getUseCaseWeights (use_case : String) : ScoreWeights :=
  (useCasePriority (resolveUseCase use_case)).getD DEFAULT_WEIGHTS

inductive Objective where
  | balanced | latency | quality | cost
deriving DecidableEq, Repr

/-- `getObjectiveWeights` of the source. -/
def getObjectiveWeights (optimize_for : Objective) (use_case : String) : ScoreWeights :=
  match optimize_for with
  | .latency => { latency := 100, quality := 30, cost := 30 }
  | .quality => { latency := 30, quality := 100, cost := 30 }
  | .cost => { latency := 30, quality := 30, cost := 100 }
  | .balanced => getUseCaseWeights use_case

/-! ## Benchmark data -/

structure BenchmarkEntry where
  stt : String
  sttModel : String
  llm : String
  llmModel : String
  tts : String
  ttsModel : String
  latencyMs : ℚ
  quality : ℚ
  costPerMin : ℚ
  mos : Option ℚ := none
  languages : List String
  notes : Option String := none
deriving DecidableEq, Repr

/-- `BENCHMARK_DATA` from the data module (decimal JS numbers written as
exact rationals). -/
def BENCHMARK_DATA : List BenchmarkEntry :=
  [ { stt := "Deepgram", sttModel := "nova-3",
      llm := "OpenAI", llmModel := "gpt-4.1-mini",
      tts := "Cartesia", ttsModel := "sonic-3",
      latencyMs := 168, quality := 45/10, costPerMin := 7/1000, mos := some (43/10),
      languages := ["Thai", "English", "Vietnamese", "Indonesian", "Japanese", "Korean"],
      notes := some "Best overall for APAC multilingual. Production-proven across enterprise deployments." },
    { stt := "Deepgram", sttModel := "nova-3",
      llm := "Groq", llmModel := "llama-4-maverick",
      tts := "Cartesia", ttsModel := "sonic-3",
      latencyMs := 156, quality := 42/10, costPerMin := 5/1000,
      languages := ["Thai", "English"],
      notes := some "Lowest latency option. Groq inference is fast but quality slightly lower." },
    { stt := "Deepgram", sttModel := "nova-3",
      llm := "OpenAI", llmModel := "gpt-4.1",
      tts := "ElevenLabs", ttsModel := "turbo_v2.5",
      latencyMs := 215, quality := 45/10, costPerMin := 14/1000, mos := some (45/10),
      languages := ["Thai", "English", "Japanese"],
      notes := some "Highest naturalness. ElevenLabs excels for emotional/expressive voices." },
    { stt := "AssemblyAI", sttModel := "universal-3-pro",
      llm := "OpenAI", llmModel := "gpt-4.1-mini",
      tts := "Cartesia", ttsModel := "sonic-3",
      latencyMs := 178, quality := 44/10, costPerMin := 8/1000, mos := some (42/10),
      languages := ["English", "Vietnamese", "Filipino", "Cantonese"],
      notes := some "Strong for Southeast Asian languages. AssemblyAI universal model handles accents well." },
    { stt := "OpenAI", sttModel := "gpt-4o-transcribe",
      llm := "OpenAI", llmModel := "gpt-4.1",
      tts := "ElevenLabs", ttsModel := "eleven_v3",
      latencyMs := 287, quality := 48/10, costPerMin := 22/1000, mos := some (48/10),
      languages := ["English", "Japanese", "Korean"],
      notes := some "Premium quality, highest cost. Best for high-stakes conversations (insurance, healthcare)." },
    { stt := "Speechmatics", sttModel := "enhanced",
      llm := "OpenAI", llmModel := "gpt-4.1-mini",
      tts := "Rime", ttsModel := "arcana-v3",
      latencyMs := 205, quality := 42/10, costPerMin := 8/1000,
      languages := ["Thai", "English", "Cantonese"],
      notes := some "Speechmatics leads for Thai code-switching (94% vs Deepgram 71%)." },
    { stt := "Deepgram", sttModel := "nova-3",
      llm := "Google", llmModel := "gemini-2.5-pro",
      tts := "PlayHT", ttsModel := "play-3.0-mini",
      latencyMs := 268, quality := 41/10, costPerMin := 8/1000, mos := some (41/10),
      languages := ["English", "Indonesian", "Filipino"],
      notes := some "Good balance for Indonesian/Filipino markets." },
    { stt := "Google", sttModel := "chirp-3",
      llm := "Groq", llmModel := "llama-4-maverick",
      tts := "Cartesia", ttsModel := "sonic-3",
      latencyMs := 195, quality := 4, costPerMin := 6/1000,
      languages := ["English", "Vietnamese", "Japanese", "Korean"],
      notes := some "Budget option with decent quality. Good for high-volume, cost-sensitive deployments." },
    { stt := "Deepgram", sttModel := "nova-3",
      llm := "ElevenLabs", llmModel := "eleven-turbo",
      tts := "ElevenLabs", ttsModel := "eleven_v3",
      latencyMs := 142, quality := 41/10, costPerMin := 4/1000,
      languages := ["Thai", "English", "Vietnamese", "Indonesian"],
      notes := some "ElevenLabs end-to-end. Lowest latency when using their full stack." },
    { stt := "Deepgram", sttModel := "nova-3",
      llm := "Google", llmModel := "gemini-2.5-flash",
      tts := "Cartesia", ttsModel := "sonic-3",
      latencyMs := 148, quality := 42/10, costPerMin := 4/1000,
      languages := ["English", "Thai", "Vietnamese", "Filipino", "Indonesian"],
      notes := some "Best cost-to-performance ratio. Gemini Flash is surprisingly good for voice agents." },
    { stt := "Deepgram", sttModel := "nova-3",
      llm := "Anthropic", llmModel := "claude-sonnet-4-5",
      tts := "Cartesia", ttsModel := "sonic-3",
      latencyMs := 198, quality := 46/10, costPerMin := 9/1000,
      languages := ["English", "Japanese", "Korean", "Thai"],
      notes := some "Claude excels at nuanced conversations. Best for complex reasoning in voice agents." },
    { stt := "AssemblyAI", sttModel := "universal-3-pro",
      llm := "ElevenLabs", llmModel := "eleven-turbo",
      tts := "ElevenLabs", ttsModel := "turbo_v2.5",
      latencyMs := 210, quality := 4, costPerMin := 6/1000,
      languages := ["English", "Cantonese", "Japanese"],
      notes := some "Solid mid-range option for East Asian languages." } ]

/-! ## Provider info (models per provider and category) -/

inductive ProviderCategory where
  | stt | llm | tts
deriving DecidableEq, Repr

/-- `PROVIDER_INFO[category]` restricted to what the engine reads from it:
the model list per canonical provider (URLs and strengths strings are
rendering-only). -/
def providerInfoModels : ProviderCategory → List (String × List String)
  | .stt =>
    [ ("Deepgram", ["nova-3", "nova-2"]),
      ("AssemblyAI", ["universal-3-pro"]),
      ("OpenAI", ["gpt-4o-transcribe", "whisper-large-v3"]),
      ("Speechmatics", ["enhanced"]),
      ("Google", ["chirp-3"]) ]
  | .llm =>
    [ ("OpenAI", ["gpt-4.1-mini", "gpt-4.1"]),
      ("Anthropic", ["claude-sonnet-4-5"]),
      ("Google", ["gemini-2.5-flash", "gemini-2.5-pro"]),
      ("Groq", ["llama-4-maverick"]),
      ("ElevenLabs", ["eleven-turbo"]) ]
  | .tts =>
    [ ("Cartesia", ["sonic-3"]),
      ("ElevenLabs", ["eleven_v3", "turbo_v2.5"]),
      ("PlayHT", ["play-3.0-mini"]),
      ("Rime", ["arcana-v3"]) ]

/-- `getProviderModels`: models of the resolved provider in a category. -/
def getProviderModels (provider : String) (category : ProviderCategory) : List String :=
  match resolveProvider provider with
  | none => []
  | some resolved =>
    (((providerInfoModels category).find? (fun p => p.1 = resolved)).map Prod.snd).getD []

def modelMatches (modelA modelB : String) : Bool :=
  normalizeModel modelA = normalizeModel modelB

def isModelKnown (provider : String) (category : ProviderCategory) (model : String) : Bool :=
  (getProviderModels provider category).any (fun known => modelMatches known model)

/-- `makeProviderMatch`: does the input resolve to the catalog provider? -/
def makeProviderMatch (input : String) (provider : String) : Bool :=
  match resolveProvider input with
  | none => false
  | some normalizedInput => normalizeTerm normalizedInput = normalizeTerm provider

/-! ## Scoring and ranking -/

/-- JS `Math.round` on the (finite, exact-rational) values in play:
round half toward positive infinity (`Rat.floor` is the kernel-evaluable
form of `⌊·⌋` on `ℚ`). -/
def jsRound (x : ℚ) : ℤ := Rat.floor (x + 1/2)

lemma ratFloor_eq_intFloor (q : ℚ) : Rat.floor q = ⌊q⌋ := by
  rw [Rat.floor_def, Rat.floor_def']

/-- JS `Math.max` on two (finite) numbers, written so the kernel can
evaluate it. -/
def jsMax (a b : ℚ) : ℚ := if a ≤ b then b else a

/-- JS `Math.abs` on a (finite) number, written so the kernel can
evaluate it. -/
def jsAbs (x : ℚ) : ℚ := if x < 0 then -x else x

lemma jsMax_eq_max (a b : ℚ) : jsMax a b = max a b := by
  rw [jsMax, max_def]

lemma jsAbs_eq_abs (x : ℚ) : jsAbs x = |x| := by
  unfold jsAbs
  split
  · exact (abs_of_neg (by assumption)).symm
  · exact (abs_of_nonneg (not_lt.mp (by assumption))).symm

/-- `scoreBenchmark` of the source, in exact rational arithmetic. -/
def scoreBenchmark (entry : BenchmarkEntry) (weights : ScoreWeights) : ℚ :=
  let latencyScore := jsMax 0 (100 - (entry.latencyMs - 100) * (1/2))
  let qualityScore := entry.quality / 5 * 100
  let costScore := jsMax 0 (100 - entry.costPerMin * 5000)
  (jsRound (((latencyScore * weights.latency + qualityScore * weights.quality +
      costScore * weights.cost) / (weights.latency + weights.quality + weights.cost)) * 10) : ℚ) / 10

/-- A benchmark entry together with its computed score (the source's
`{ ...entry, score }`). -/
structure Ranked extends BenchmarkEntry where
  score : ℚ
deriving DecidableEq, Repr

def toRanked (weights : ScoreWeights) (entry : BenchmarkEntry) : Ranked :=
  { entry with score := scoreBenchmark entry weights }

/-- The lexicographic sort key realizing the source's comparator
`(a, b) => b.score - a.score || a.latencyMs - b.latencyMs || b.quality - a.quality || a.costPerMin - b.costPerMin`:
`compare(a, b) < 0` iff `lexKey a < lexKey b` (score and quality negated
because they sort descending). -/
def lexKey (a : Ranked) : ℚ ×ₗ (ℚ ×ₗ (ℚ ×ₗ ℚ)) :=
  toLex (-a.score, toLex (a.latencyMs, toLex (-a.quality, a.costPerMin)))

/-- Strict precedence of the source's sort comparator. -/
def rankedLT (a b : Ranked) : Prop := lexKey a < lexKey b

/-- Non-strict comparator order (`compare(a, b) <= 0` in the source). -/
def rankedLE (a b : Ranked) : Prop := lexKey a ≤ lexKey b

instance : DecidableRel rankedLT := fun a b => by
  unfold rankedLT; infer_instance

instance : DecidableRel rankedLE := fun a b => by
  unfold rankedLE; infer_instance

instance : IsTotal Ranked rankedLE := ⟨fun a b => le_total (lexKey a) (lexKey b)⟩

instance : IsTrans Ranked rankedLE := ⟨fun _ _ _ h1 h2 => le_trans h1 h2⟩

/-- The four keys the comparator inspects. -/
def rankedKey (a : Ranked) : ℚ × ℚ × ℚ × ℚ :=
  (a.score, a.latencyMs, a.quality, a.costPerMin)

/-- The claim's phrasing of "A is ranked strictly before B": score
descending, ties broken by latency ascending, then quality descending,
then cost ascending. -/
def rankedBefore (a b : Ranked) : Prop :=
  b.score < a.score ∨ (a.score = b.score ∧
    (a.latencyMs < b.latencyMs ∨ (a.latencyMs = b.latencyMs ∧
      (b.quality < a.quality ∨ (a.quality = b.quality ∧
        a.costPerMin < b.costPerMin)))))

instance : DecidableRel rankedBefore := fun a b => by
  unfold rankedBefore; infer_instance

lemma rankedLT_iff_before (a b : Ranked) : rankedLT a b ↔ rankedBefore a b := by
  unfold rankedLT rankedBefore lexKey
  rw [Prod.Lex.lt_iff]
  simp only [neg_lt_neg_iff, neg_inj]
  constructor
  · rintro (h | ⟨hs, h⟩)
    · exact Or.inl h
    · refine Or.inr ⟨hs, ?_⟩
      rw [Prod.Lex.lt_iff] at h
      rcases h with h | ⟨hl, h⟩
      · exact Or.inl h
      · refine Or.inr ⟨hl, ?_⟩
        rw [Prod.Lex.lt_iff] at h
        simpa using h
  · rintro (h | ⟨hs, h⟩)
    · exact Or.inl h
    · refine Or.inr ⟨hs, ?_⟩
      rw [Prod.Lex.lt_iff]
      rcases h with h | ⟨hl, h⟩
      · exact Or.inl h
      · refine Or.inr ⟨hl, ?_⟩
        rw [Prod.Lex.lt_iff]
        simpa using h

lemma lexKey_eq_iff (a b : Ranked) : lexKey a = lexKey b ↔ rankedKey a = rankedKey b := by
  unfold lexKey rankedKey
  constructor
  · intro h
    have h1 : -a.score = -b.score := congrArg (fun x => (ofLex x).1) h
    have h2 : a.latencyMs = b.latencyMs := congrArg (fun x => (ofLex (ofLex x).2).1) h
    have h3 : -a.quality = -b.quality := congrArg (fun x => (ofLex (ofLex (ofLex x).2).2).1) h
    have h4 : a.costPerMin = b.costPerMin := congrArg (fun x => (ofLex (ofLex (ofLex x).2).2).2) h
    simp only [Prod.mk.injEq]
    exact ⟨by linarith, h2, by linarith, h4⟩
  · intro h
    simp only [Prod.mk.injEq] at h
    obtain ⟨h1, h2, h3, h4⟩ := h
    rw [h1, h2, h3, h4]

lemma rankedLE_iff (a b : Ranked) : rankedLE a b ↔ rankedBefore a b ∨ rankedKey a = rankedKey b := by
  rw [← rankedLT_iff_before, ← lexKey_eq_iff]
  exact le_iff_lt_or_eq

lemma rankedLE_iff_not_lt (a b : Ranked) : rankedLE a b ↔ ¬ rankedLT b a := by
  unfold rankedLE rankedLT
  exact ⟨fun h => not_lt_of_le h, fun h => le_of_not_lt h⟩

/-- `rankBenchmarks` of the source: map to scored entries and sort with
the comparator. JS `Array.prototype.sort` is a stable sort and
`List.insertionSort` is the stable sort for `rankedLE` (ties — key-equal
pairs — keep input order), and stable sorts agree on every input. -/
def rankBenchmarks (entries : List BenchmarkEntry) (weights : ScoreWeights) : List Ranked :=
  List.insertionSort rankedLE (entries.map (toRanked weights))

/-- `clampMaxResults`: `Math.max(1, Math.min(Math.floor(value), MAX_RESULTS))`. -/
def clampMaxResults (value : ℚ) : ℤ :=
  max 1 (min (Rat.floor value) MAX_RESULTS)

/-! ## Scaffold compatibility -/

inductive ScaffoldFramework where
  | livekit | nextjs
deriving DecidableEq, Repr

/-- `FRAMEWORK_COMPATIBILITY` allow-sets (empty list = empty set = "any"). -/
def frameworkSTT : ScaffoldFramework → List String
  | .livekit => ["Deepgram", "OpenAI", "Google"]
  | .nextjs => []

def frameworkLLM : ScaffoldFramework → List String
  | .livekit => ["OpenAI", "Anthropic", "Google"]
  | .nextjs => []

def frameworkTTS : ScaffoldFramework → List String
  | .livekit => ["Cartesia", "ElevenLabs"]
  | .nextjs => ["ElevenLabs"]

/-- `isScaffoldCompatible`: every category's allow-set is empty or contains
the entry's provider (the TTS set is never empty in the source, whose check
is membership only). -/
def isScaffoldCompatible (entry : BenchmarkEntry) (framework : ScaffoldFramework) : Bool :=
  ((frameworkSTT framework).isEmpty || (frameworkSTT framework).contains entry.stt) &&
  ((frameworkLLM framework).isEmpty || (frameworkLLM framework).contains entry.llm) &&
  (frameworkTTS framework).contains entry.tts

/-! ## Combo parsing -/

structure ParsedProviderModel where
  provider : String
  model : Option String := none
deriving DecidableEq, Repr

structure ParsedCombo where
  stt : ParsedProviderModel
  llm : ParsedProviderModel
  tts : ParsedProviderModel
deriving DecidableEq, Repr

/-- `parseProviderWithModel` of the source: resolve the provider, then
recover the trailing model text from the original input by skipping as many
whitespace-separated words as the matched alias spans. -/
def parseProviderWithModel (input : String) : Option ParsedProviderModel :=
  let normalized := normalizeProviderInput input
  if normalized = "" then none
  else match resolveProviderMatch input with
    | none => none
    | some resolved =>
      let normalizedRemainder := trimChars (normalized.data.drop resolved.matchedAlias.length)
      if normalizedRemainder.isEmpty then some { provider := resolved.provider }
      else
        let originalTrimmed := trimChars input.data
        let aliasWords := (wsWords resolved.matchedAlias.data []).length
        let inputWords := wsWords originalTrimmed []
        let originalModel := trimChars (joinSpace (inputWords.drop aliasWords))
        some { provider := resolved.provider,
               model := some (String.mk (if originalModel.isEmpty then normalizedRemainder else originalModel)) }

/-- Does the combo-separator regex `\s*(?:\+|,|->)\s*` match at the head of
the list?  If so, return what remains after the (greedy) match. -/
def matchSep (cs : List Char) : Option (List Char) :=
  match cs.dropWhile isWSChar with
  | '+' :: r => some (r.dropWhile isWSChar)
  | ',' :: r => some (r.dropWhile isWSChar)
  | '-' :: '>' :: r => some (r.dropWhile isWSChar)
  | _ => none

lemma matchSep_length_lt (cs rem : List Char) (h : matchSep cs = some rem) :
    rem.length < cs.length := by
  have hdw : (cs.dropWhile isWSChar).length ≤ cs.length :=
    (List.dropWhile_suffix _).length_le
  unfold matchSep at h
  split at h
  · rename_i r heq
    cases h
    have hr : (r.dropWhile isWSChar).length ≤ r.length :=
      (List.dropWhile_suffix _).length_le
    rw [heq] at hdw; simp only [List.length_cons] at hdw; omega
  · rename_i r heq
    cases h
    have hr : (r.dropWhile isWSChar).length ≤ r.length :=
      (List.dropWhile_suffix _).length_le
    rw [heq] at hdw; simp only [List.length_cons] at hdw; omega
  · rename_i r heq
    cases h
    have hr : (r.dropWhile isWSChar).length ≤ r.length :=
      (List.dropWhile_suffix _).length_le
    rw [heq] at hdw; simp only [List.length_cons] at hdw; omega
  · exact absurd h (by simp)

/-- Split on the combo-separator regex, leftmost match first (the raw
segments, before trimming/filtering — JS `String.prototype.split`).
Structural recursion on fuel so the kernel can evaluate it: each step
consumes either one character or a whole separator match (which shrinks
the input by `matchSep_length_lt`), so `cs.length + 1` fuel always
suffices and the exhaustion branch is unreachable. -/
def splitComboAux : Nat → List Char → List Char → List (List Char)
  | fuel + 1, cs, acc =>
    match matchSep cs with
    | some rem => acc.reverse :: splitComboAux fuel rem []
    | none =>
      match cs with
      | [] => [acc.reverse]
      | c :: rest => splitComboAux fuel rest (c :: acc)
  | 0, cs, acc => [acc.reverse ++ cs]

def splitCombo (cs : List Char) : List (List Char) :=
  splitComboAux (cs.length + 1) cs []

/-- The trimmed non-empty segments of a combo string. -/
def comboSegments (desc : String) : List String :=
  (((splitCombo desc.data).map trimChars).filter (fun s => ¬ s.isEmpty)).map String.mk

/-- `parseComboInput` of the source: exactly three resolvable segments. -/
def parseComboInput (desc : String) : Option ParsedCombo :=
  match comboSegments desc with
  | [sttInput, llmInput, ttsInput] =>
    match parseProviderWithModel sttInput, parseProviderWithModel llmInput,
          parseProviderWithModel ttsInput with
    | some stt, some llm, some tts => some { stt := stt, llm := llm, tts := tts }
    | _, _, _ => none
  | _ => none

/-! ## Tool responses

`formatToolResponse` in the source wraps either the markdown string or the
JSON-serialized structured payload into the MCP text response; the
operation cores below are modelled as returning their structured payload
(the "underlying computed result" — status, rows, decision), with the
final text rendering abstracted away. -/

inductive OutputFormat where
  | markdown | json
deriving DecidableEq, Repr

inductive ToolText (α : Type) where
  | markdown (text : String)
  | json (payload : α)
deriving DecidableEq, Repr

/-- `formatToolResponse`: select the rendering of a precomputed pair. -/
def formatToolResponse (format : OutputFormat) (markdown : String) (payload : α) : ToolText α :=
  match format with
  | .markdown => .markdown markdown
  | .json => .json payload

/-! ## Tool 1: recommend -/

/-- The benchmark rows supporting a resolved language
(`BENCHMARK_DATA.filter(b => b.languages.some(l => l.toLowerCase() === resolvedLanguage.toLowerCase()))`). -/
def languageFilter (resolvedLanguage : String) : List BenchmarkEntry :=
  BENCHMARK_DATA.filter (fun b =>
    b.languages.any (fun l => lowerStr l = lowerStr resolvedLanguage))

inductive RecommendOutcome where
  | unsupportedLanguage (requested : String) (suggestions : List String)
  | noBenchmarks (requested : String)
  | ok (language use_case : String) (optimize_for : Objective) (top : List Ranked)
deriving DecidableEq, Repr

/-- `voiceforge_recommend` up to rendering. The source computes `top` and
only then branches on `output_format` to render the same value, so the
outcome does not depend on the format argument. -/
def recommendOutcome (language use_case : String) (optimize_for : Objective)
    (max_results : ℚ) (_output_format : OutputFormat) : RecommendOutcome :=
  match resolveLanguage language with
  | none => .unsupportedLanguage language (getLanguageSuggestions language)
  | some resolvedLanguage =>
    let resolvedUseCase := resolveUseCase use_case
    let matching := languageFilter resolvedLanguage
    if matching.isEmpty then .noBenchmarks language
    else
      let resultLimit := clampMaxResults max_results
      let weights := getObjectiveWeights optimize_for resolvedUseCase
      let top := (rankBenchmarks matching weights).take resultLimit.toNat
      .ok resolvedLanguage resolvedUseCase optimize_for top

/-! ## Tool 2: benchmark -/

inductive SortBy where
  | latency | quality | cost
deriving DecidableEq, Repr

def sortByLatency (a b : BenchmarkEntry) : Prop := a.latencyMs ≤ b.latencyMs
def sortByCost (a b : BenchmarkEntry) : Prop := a.costPerMin ≤ b.costPerMin
def sortByQuality (a b : BenchmarkEntry) : Prop := b.quality ≤ a.quality

instance : DecidableRel sortByLatency := fun a b => by unfold sortByLatency; infer_instance
instance : DecidableRel sortByCost := fun a b => by unfold sortByCost; infer_instance
instance : DecidableRel sortByQuality := fun a b => by unfold sortByQuality; infer_instance

/-- The single-key stable sorts of the benchmark listing. -/
def benchSort (sort_by : SortBy) (rows : List BenchmarkEntry) : List BenchmarkEntry :=
  match sort_by with
  | .latency => List.insertionSort sortByLatency rows
  | .cost => List.insertionSort sortByCost rows
  | .quality => List.insertionSort sortByQuality rows

def stringLE (a b : String) : Prop := a ≤ b

instance : DecidableRel stringLE := fun a b => by unfold stringLE; infer_instance

/-- `listKnownProviders()` (no category): all canonical providers sorted
alphabetically (`localeCompare` coincides with lexicographic order on
these ASCII names). -/
def listKnownProviders : List String :=
  List.insertionSort stringLE ALL_PROVIDERS

inductive BenchOutcome where
  | languageError (requested : String) (suggestions : List String)
  | providerError (requested : String) (supported : List String)
  | okEmpty (language provider : Option String)
  | ok (language provider : Option String) (rows : List BenchmarkEntry)
deriving DecidableEq, Repr

/-- The benchmark listing after the language gate has passed. -/
def benchmarkWithLanguage (resolvedLanguage : Option String) (provider : Option String)
    (sort_by : SortBy) : BenchOutcome :=
  match provider with
  | some prov =>
    match resolveProvider prov with
    | none => .providerError prov listKnownProviders
    | some resolvedProvider => benchmarkRows resolvedLanguage (some resolvedProvider) sort_by
  | none => benchmarkRows resolvedLanguage none sort_by
where
  benchmarkRows (resolvedLanguage resolvedProvider : Option String) (sort_by : SortBy) :
      BenchOutcome :=
    let step1 := match resolvedLanguage with
      | some rl => languageFilter rl
      | none => BENCHMARK_DATA
    let results := match resolvedProvider with
      | some rp => step1.filter (fun b =>
          makeProviderMatch rp b.stt || makeProviderMatch rp b.llm || makeProviderMatch rp b.tts)
      | none => step1
    if results.isEmpty then .okEmpty resolvedLanguage resolvedProvider
    else .ok resolvedLanguage resolvedProvider (benchSort sort_by results)

/-- `voiceforge_benchmark` up to rendering (both formats carry the same
payload through `formatToolResponse`, so the outcome has no format
argument). -/
def benchmarkOutcome (language provider : Option String) (sort_by : SortBy) : BenchOutcome :=
  match language with
  | some lang =>
    match resolveLanguage lang with
    | none => .languageError lang (getLanguageSuggestions lang)
    | some rl => benchmarkWithLanguage (some rl) provider sort_by
  | none => benchmarkWithLanguage none provider sort_by

/-- Status discriminator carried by each benchmark payload. -/
def benchStatus : BenchOutcome → String
  | .languageError _ _ => "error"
  | .providerError _ _ => "error"
  | .okEmpty _ _ => "ok"
  | .ok _ _ _ => "ok"

/-- Machine-readable reason code of each benchmark payload. -/
def benchReason : BenchOutcome → Option String
  | .languageError _ _ => some "unsupported-language"
  | .providerError _ _ => some "unsupported-provider"
  | .okEmpty _ _ => none
  | .ok _ _ _ => none

/-! ## Tool 4: scaffold (stack selection) -/

/-- The six-field stack identity string the source compares
(`` `${stt} ${sttModel} ${llm} ${llmModel} ${tts} ${ttsModel}` ``). -/
def sixFields (e : BenchmarkEntry) : String :=
  e.stt ++ " " ++ e.sttModel ++ " " ++ e.llm ++ " " ++ e.llmModel ++ " " ++
    e.tts ++ " " ++ e.ttsModel

inductive ScaffoldOutcome where
  | unsupportedLanguage (requested : String) (suggestions : List String)
  | defaultStack (requested : String)
  | noCompatible (framework : ScaffoldFramework) (language : String)
  | ok (best topPick : Ranked) (notice : Bool)
deriving DecidableEq, Repr

/-- `voiceforge_scaffold` up to template generation and rendering: the
stack-selection core.  `notice` is whether the non-empty fallback notice
string is produced (`!isSameStack && scoreDelta > 2`). -/
def scaffoldOutcome (language use_case : String) (framework : ScaffoldFramework) :
    ScaffoldOutcome :=
  match resolveLanguage language with
  | none => .unsupportedLanguage language (getLanguageSuggestions language)
  | some resolvedLanguage =>
    let resolvedUseCase := resolveUseCase use_case
    let matching := languageFilter resolvedLanguage
    if matching.isEmpty then .defaultStack language
    else
      let ranked := rankBenchmarks matching (getUseCaseWeights resolvedUseCase)
      let scaffoldable := ranked.filter (fun r => isScaffoldCompatible r.toBenchmarkEntry framework)
      match scaffoldable.head? with
      | none => .noCompatible framework resolvedLanguage
      | some best =>
        match ranked.head? with
        | none => .noCompatible framework resolvedLanguage
        | some topPick =>
          let isSameStack := sixFields topPick.toBenchmarkEntry = sixFields best.toBenchmarkEntry
          let scoreDelta := jsAbs (topPick.score - best.score)
          .ok best topPick (decide (¬ isSameStack ∧ 2 < scoreDelta))

/-! ## Tool 5: validate -/

structure ValidateArgs where
  stt_provider : String
  stt_model : String
  llm_provider : String
  llm_model : String
  tts_provider : String
  tts_model : String
deriving DecidableEq, Repr

/-- The `modelWarnings`-derived `unknownModels` list of category names, in
the source's `stt`, `llm`, `tts` order (empty when every supplied model is
in its resolved provider's known-model catalog or the catalog is empty). -/
def validateUnknownModels (a : ValidateArgs) : List String :=
  match resolveProvider a.stt_provider, resolveProvider a.llm_provider,
        resolveProvider a.tts_provider with
  | some sttP, some llmP, some ttsP =>
    let sttWarn := ¬ (getProviderModels sttP .stt).isEmpty ∧
      ¬ isModelKnown sttP .stt (lowerStr (trimStr a.stt_model))
    let llmWarn := ¬ (getProviderModels llmP .llm).isEmpty ∧
      ¬ isModelKnown llmP .llm (lowerStr (trimStr a.llm_model))
    let ttsWarn := ¬ (getProviderModels ttsP .tts).isEmpty ∧
      ¬ isModelKnown ttsP .tts (lowerStr (trimStr a.tts_model))
    (if sttWarn then ["stt"] else []) ++ (if llmWarn then ["llm"] else []) ++
      (if ttsWarn then ["tts"] else [])
  | _, _, _ => []

/-- The exact-match filter of `voiceforge_validate`. -/
def validateMatches (sttP llmP ttsP : String) (a : ValidateArgs) : List BenchmarkEntry :=
  BENCHMARK_DATA.filter (fun entry =>
    makeProviderMatch sttP entry.stt && lowerStr entry.sttModel = lowerStr (trimStr a.stt_model) &&
    makeProviderMatch llmP entry.llm && lowerStr entry.llmModel = lowerStr (trimStr a.llm_model) &&
    makeProviderMatch ttsP entry.tts && lowerStr entry.ttsModel = lowerStr (trimStr a.tts_model))

inductive ValidateOutcome where
  | unresolvedProvider
  | warning (unknown_models : List String)
  | noExactMatch (unknown_models : List String)
  | ok (top : Ranked) (benchmark_matches : Nat) (livekit nextjs : Bool)
deriving DecidableEq, Repr

/-- `voiceforge_validate` up to rendering.  The outcome *does* depend on
`output_format`: with `json` the unknown-model branch returns the warning
payload immediately, while with `markdown` the source deliberately
continues to best-effort matching (the `framework` argument only adds
markdown caveat lines and never changes the payload, so it is omitted). -/
def validateOutcome (a : ValidateArgs) (output_format : OutputFormat) : ValidateOutcome :=
  match resolveProvider a.stt_provider, resolveProvider a.llm_provider,
        resolveProvider a.tts_provider with
  | some sttP, some llmP, some ttsP =>
    let unknownModels := validateUnknownModels a
    if ¬ unknownModels.isEmpty ∧ output_format = .json then .warning unknownModels
    else
      let matchRows := validateMatches sttP llmP ttsP a
      if matchRows.isEmpty then .noExactMatch unknownModels
      else
        match (rankBenchmarks matchRows (getUseCaseWeights "customer-support")).head? with
        | none => .noExactMatch unknownModels
        | some top =>
          .ok top matchRows.length (isScaffoldCompatible top.toBenchmarkEntry .livekit)
            (isScaffoldCompatible top.toBenchmarkEntry .nextjs)
  | _, _, _ => .unresolvedProvider

/-! ## Specification-side definitions (used to state the claims) -/

/-- Round to one decimal place, halves up (as JS `Math.round(x*10)/10`). -/
def round10 (x : ℚ) : ℚ := (⌊x * 10 + 1/2⌋ : ℚ) / 10

/-- Claim C1's reading of the matching rule, verbatim: reject normalized
inputs shorter than 3 characters, then scan the length-sorted catalog and
accept the first candidate whose alias equals the normalized input, *is a
string-prefix of* the normalized input, or is followed by a space at the
start of the normalized input. -/
def resolveProviderMatchClaim (input : String) : Option ProviderMatch :=
  let normalized := normalizeProviderInput input
  if normalized.length < MIN_PROVIDER_INPUT_LENGTH then none
  else PROVIDER_ALIAS_CATALOG.findSome? fun c =>
    if c.aliasText = normalized ∨
        c.aliasText.data.isPrefixOf normalized.data ∨
        (c.aliasText.data ++ [' ']).isPrefixOf normalized.data
    then some { provider := c.provider, matchedAlias := c.aliasText } else none

/-- The amended rule: as claim C1, but with the prefix test in the
source's direction — the *normalized input* is a string-prefix of the
*alias* (`candidate.alias.startsWith(normalized)`). -/
def resolveProviderMatchAmended (input : String) : Option ProviderMatch :=
  let normalized := normalizeProviderInput input
  if normalized.length < MIN_PROVIDER_INPUT_LENGTH then none
  else PROVIDER_ALIAS_CATALOG.findSome? fun c =>
    if c.aliasText = normalized ∨
        normalized.data.isPrefixOf c.aliasText.data ∨
        (c.aliasText.data ++ [' ']).isPrefixOf normalized.data
    then some { provider := c.provider, matchedAlias := c.aliasText } else none

/-- Concrete scored rows used to instantiate the ranking and scaffold
statements. -/
def koreanWeights : ScoreWeights := getUseCaseWeights (resolveUseCase "customer support")

def koreanBest : Ranked := toRanked koreanWeights (BENCHMARK_DATA.get ⟨4, by decide⟩)

def koreanTop : Ranked := toRanked koreanWeights (BENCHMARK_DATA.get ⟨0, by decide⟩)

def rankedA : Ranked := toRanked DEFAULT_WEIGHTS (BENCHMARK_DATA.get ⟨0, by decide⟩)

def rankedB : Ranked := toRanked DEFAULT_WEIGHTS (BENCHMARK_DATA.get ⟨1, by decide⟩)

/-- A use-case input "resolves to a canonical key" when either the exact
priority-table lookup or the alias search of `resolveUseCase` succeeds. -/
def useCaseResolvable (input : String) : Prop :=
  (useCasePriority (normalizeUseCase input)).isSome ∨
    (useCaseAliasHit (normalizeUseCase input)).isSome

instance (input : String) : Decidable (useCaseResolvable input) := by
  unfold useCaseResolvable; infer_instance

/-! ## General lemmas -/

lemma findSome?_congr {α β : Type} (f g : α → Option β) (l : List α)
    (h : ∀ a ∈ l, f a = g a) : l.findSome? f = l.findSome? g := by
  induction l with
  | nil => rfl
  | cons x xs ih =>
    rw [List.findSome?_cons, List.findSome?_cons, h x (by simp)]
    cases g x with
    | none => exact ih fun a ha => h a (by simp [ha])
    | some b => rfl

lemma take_ne_nil {α : Type} (n : Nat) (l : List α) (hn : n ≠ 0) (hl : l ≠ []) :
    l.take n ≠ [] := by
  cases l with
  | nil => exact absurd rfl hl
  | cons x xs => cases n with
    | zero => exact absurd rfl hn
    | succ m => simp

lemma rank_ne_nil (entries : List BenchmarkEntry) (weights : ScoreWeights)
    (h : entries ≠ []) : rankBenchmarks entries weights ≠ [] := by
  intro hnil
  have hperm := List.perm_insertionSort rankedLE (entries.map (toRanked weights))
  rw [rankBenchmarks] at hnil
  rw [hnil] at hperm
  have := hperm.length_eq
  simp only [List.length_nil, List.length_map] at this
  exact h (List.eq_nil_of_length_eq_zero this.symm)

/-! ## Claim theorems -/

/-- C2: for every benchmark entry and every weight triple, the computed
score equals the one-decimal rounding of the weighted average of the three
sub-scores `max(0, 100 - (L - 100) * 0.5)`, `(Q / 5) * 100` and
`max(0, 100 - C * 5000)`, normalized by the weight sum. -/
theorem scoreBenchmark_spec :
    ∀ (entry : BenchmarkEntry) (weights : ScoreWeights),
      scoreBenchmark entry weights =
        round10 ((max 0 (100 - (entry.latencyMs - 100) * (1/2)) * weights.latency +
            (entry.quality / 5) * 100 * weights.quality +
            max 0 (100 - entry.costPerMin * 5000) * weights.cost) /
          (weights.latency + weights.quality + weights.cost)) := by
  intro entry weights
  simp only [scoreBenchmark, round10, jsRound, jsMax_eq_max, ratFloor_eq_intFloor]

/-- C8 (amended): a use-case string that resolves to a canonical key gets
that key's configured priority weights; an unrecognized use-case string is
passed through in its *normalized* (lowercased, hyphenated) form — not
verbatim — and scoring falls back to the default weights (70, 70, 60)
rather than producing an error. -/
theorem useCaseWeights_spec :
    (∀ (input : String) (w : ScoreWeights),
        useCasePriority (resolveUseCase input) = some w → getUseCaseWeights input = w)
    ∧ (∀ input : String, ¬ useCaseResolvable input →
        resolveUseCase input = normalizeUseCase input ∧
        getUseCaseWeights input = DEFAULT_WEIGHTS) := by
  constructor
  · intro input w h
    unfold getUseCaseWeights
    rw [h]
    rfl
  · intro input h
    unfold useCaseResolvable at h
    push_neg at h
    obtain ⟨h1, h2⟩ := h
    have hprio : useCasePriority (normalizeUseCase input) = none :=
      Option.not_isSome_iff_eq_none.mp (by simp_all)
    have halias : useCaseAliasHit (normalizeUseCase input) = none :=
      Option.not_isSome_iff_eq_none.mp (by simp_all)
    have hres : resolveUseCase input = normalizeUseCase input := by
      simp [resolveUseCase, hprio, halias]
    refine ⟨hres, ?_⟩
    unfold getUseCaseWeights
    rw [hres, hprio]
    rfl

/-- C8 counterexample: "Quantum Chess" resolves to no canonical key, yet
`resolveUseCase` does not pass it through unchanged — it returns the
normalized form "quantum-chess" (the default weights do apply). -/
theorem resolveUseCase_not_verbatim :
    ¬ useCaseResolvable "Quantum Chess" ∧
    resolveUseCase "Quantum Chess" = "quantum-chess" ∧
    resolveUseCase "Quantum Chess" ≠ "Quantum Chess" ∧
    getUseCaseWeights "Quantum Chess" = DEFAULT_WEIGHTS := by decide

/-- C8 witness: "sales" resolves and gets its configured weights; "Quantum
Chess" is unrecognized, passes through normalized, and falls back to the
default weights. -/
theorem useCaseWeights_spec_witness :
    getUseCaseWeights "sales" = { latency := 70, quality := 80, cost := 50 } ∧
    (resolveUseCase "Quantum Chess" = normalizeUseCase "Quantum Chess" ∧
      getUseCaseWeights "Quantum Chess" = DEFAULT_WEIGHTS) :=
  ⟨useCaseWeights_spec.1 "sales" _ (by decide),
   useCaseWeights_spec.2 "Quantum Chess" (by decide)⟩

/-- C9: every clamped result count lies in [1, 10]; consequently, whenever
the resolved language is supported by at least one benchmark row, the
recommend operation reaches its `ok` branch with a non-empty truncated
ranked list, so reading the top pick can never access a missing element. -/
theorem clampMaxResults_spec :
    (∀ value : ℚ, 1 ≤ clampMaxResults value ∧ clampMaxResults value ≤ 10)
    ∧ (∀ (language use_case : String) (optimize_for : Objective) (max_results : ℚ)
        (fmt : OutputFormat) (rl : String),
        resolveLanguage language = some rl →
        languageFilter rl ≠ [] →
        ∃ top, recommendOutcome language use_case optimize_for max_results fmt =
            .ok rl (resolveUseCase use_case) optimize_for top ∧
          top ≠ [] ∧ top.head?.isSome) := by
  constructor
  · intro value
    unfold clampMaxResults MAX_RESULTS
    exact ⟨le_max_left 1 _, max_le (by norm_num) (le_trans (min_le_right _ _) (by norm_num))⟩
  · intro language use_case optimize_for max_results fmt rl hrl hne
    have hclamp : (1 : ℤ) ≤ clampMaxResults max_results := le_max_left 1 _
    have htop : ((rankBenchmarks (languageFilter rl)
        (getObjectiveWeights optimize_for (resolveUseCase use_case))).take
          (clampMaxResults max_results).toNat) ≠ [] := by
      refine take_ne_nil _ _ ?_ (rank_ne_nil _ _ hne)
      omega
    refine ⟨_, ?_, htop, ?_⟩
    · unfold recommendOutcome
      rw [hrl]
      simp only [List.isEmpty_eq_true]
      rw [if_neg hne]
    · cases hcase : (rankBenchmarks (languageFilter rl)
          (getObjectiveWeights optimize_for (resolveUseCase use_case))).take
            (clampMaxResults max_results).toNat with
      | nil => exact absurd hcase htop
      | cons x xs => simp

/-- C9 witness: at `language = "Thai"` the hypotheses hold concretely and
the recommend outcome is a non-empty `ok` list. -/
theorem clampMaxResults_spec_witness :
    (1 ≤ clampMaxResults (7/2) ∧ clampMaxResults (7/2) ≤ 10) ∧
    ∃ top, recommendOutcome "Thai" "customer support" Objective.quality 5 OutputFormat.markdown =
        .ok "Thai" (resolveUseCase "customer support") Objective.quality top ∧
      top ≠ [] ∧ top.head?.isSome :=
  ⟨clampMaxResults_spec.1 (7/2),
   clampMaxResults_spec.2 "Thai" "customer support" Objective.quality 5 OutputFormat.markdown
     "Thai" (by decide) (by decide)⟩

/-- C7 (amended): an unresolvable `language` filter always makes the
benchmark operation return the recoverable `error` payload with reason
`unsupported-language` carrying the substring-derived suggestions — which
may be *empty* (as for "Nigerian"), not always non-empty as claimed. -/
theorem benchmark_unsupported_language_spec :
    ∀ (lang : String) (provider : Option String) (sort_by : SortBy),
      resolveLanguage lang = none →
      benchmarkOutcome (some lang) provider sort_by =
          .languageError lang (getLanguageSuggestions lang) ∧
      benchStatus (benchmarkOutcome (some lang) provider sort_by) = "error" ∧
      benchReason (benchmarkOutcome (some lang) provider sort_by) =
        some "unsupported-language" := by
  intro lang provider sort_by h
  have he : benchmarkOutcome (some lang) provider sort_by =
      .languageError lang (getLanguageSuggestions lang) := by
    simp only [benchmarkOutcome, h]
  exact ⟨he, by rw [he]; rfl, by rw [he]; rfl⟩

/-- C7 counterexample: `benchmark(language = "Nigerian")` does return the
`unsupported-language` error, but its suggestions list is empty — the
claim's "non-empty suggestions list" fails on the code. -/
theorem benchmark_nigerian_empty_suggestions :
    benchmarkOutcome (some "Nigerian") none SortBy.quality =
        .languageError "Nigerian" [] ∧
    getLanguageSuggestions "Nigerian" = [] := by decide

/-- C7 witness: the amended statement instantiated at "Nigerian". -/
theorem benchmark_unsupported_language_witness :
    benchmarkOutcome (some "Nigerian") none SortBy.quality =
        .languageError "Nigerian" (getLanguageSuggestions "Nigerian") ∧
    benchStatus (benchmarkOutcome (some "Nigerian") none SortBy.quality) = "error" ∧
    benchReason (benchmarkOutcome (some "Nigerian") none SortBy.quality) =
      some "unsupported-language" :=
  benchmark_unsupported_language_spec "Nigerian" none SortBy.quality (by decide)

/-- C5 (amended): the recommend operation's computed outcome never depends
on `output_format`; the validate operation's outcome is format-independent
*except* in the unknown-model branch, where the source returns the warning
payload for `json` but deliberately continues to best-effort matching for
`markdown` — so noninterference holds for validate only when no model
warning is raised. -/
theorem outputFormat_noninterference :
    (∀ (language use_case : String) (optimize_for : Objective) (max_results : ℚ)
        (f1 f2 : OutputFormat),
        recommendOutcome language use_case optimize_for max_results f1 =
          recommendOutcome language use_case optimize_for max_results f2)
    ∧ (∀ (a : ValidateArgs) (f1 f2 : OutputFormat), validateUnknownModels a = [] →
        validateOutcome a f1 = validateOutcome a f2) := by
  constructor
  · intro _ _ _ _ _ _
    rfl
  · intro a f1 f2 hu
    unfold validateOutcome
    cases hstt : resolveProvider a.stt_provider with
    | none => rfl
    | some sttP =>
      cases hllm : resolveProvider a.llm_provider with
      | none => rfl
      | some llmP =>
        cases htts : resolveProvider a.tts_provider with
        | none => rfl
        | some ttsP => simp [hu]

/-- C5 counterexample: with an unknown STT model ("nova-99") the validate
operation computes a different underlying result for `json` (a `warning`
payload) than for `markdown` (a `no-exact-match` error payload) — the
claimed output-format noninterference fails. -/
theorem validate_format_interference :
    validateOutcome
        { stt_provider := "Deepgram", stt_model := "nova-99",
          llm_provider := "OpenAI", llm_model := "gpt-4.1-mini",
          tts_provider := "Cartesia", tts_model := "sonic-3" } OutputFormat.json ≠
      validateOutcome
        { stt_provider := "Deepgram", stt_model := "nova-99",
          llm_provider := "OpenAI", llm_model := "gpt-4.1-mini",
          tts_provider := "Cartesia", tts_model := "sonic-3" } OutputFormat.markdown := by
  decide

/-- C1 (amended): inputs whose normalized form is shorter than 3
characters resolve to no provider; otherwise the scan over the
length-descending alias catalog accepts the first candidate whose alias
equals the normalized input, *has the normalized input as a prefix* (the
source's `candidate.alias.startsWith(normalized)` — not the claim's
reversed direction), or is followed by a space at the start of the
normalized input, returning that candidate's canonical provider and
matched alias. -/
theorem resolveProviderMatch_spec :
    (∀ input : String, (normalizeProviderInput input).length < MIN_PROVIDER_INPUT_LENGTH →
        resolveProviderMatch input = none)
    ∧ (∀ input : String, resolveProviderMatch input = resolveProviderMatchAmended input) := by
  have hall : ∀ c ∈ PROVIDER_ALIAS_CATALOG,
      ¬ (c.aliasText.length < MIN_PROVIDER_INPUT_LENGTH) := by
    have h : PROVIDER_ALIAS_CATALOG.all
        (fun c => decide (MIN_PROVIDER_INPUT_LENGTH ≤ c.aliasText.length)) = true := by decide
    intro c hc
    have := List.all_eq_true.mp h c hc
    simp only [decide_eq_true_eq] at this
    omega
  constructor
  · intro input hlen
    simp only [resolveProviderMatch]
    rw [if_pos (Or.inr hlen)]
  · intro input
    simp only [resolveProviderMatch, resolveProviderMatchAmended]
    by_cases hlen : (normalizeProviderInput input).length < MIN_PROVIDER_INPUT_LENGTH
    · rw [if_pos (Or.inr hlen), if_pos hlen]
    · have hne : ¬ (normalizeProviderInput input = "" ∨
          (normalizeProviderInput input).length < MIN_PROVIDER_INPUT_LENGTH) := by
        rintro (h | h)
        · exact hlen (by rw [h]; decide)
        · exact hlen h
      rw [if_neg hne, if_neg hlen]
      apply findSome?_congr
      intro c hc
      unfold candidateCheck
      rw [if_neg (hall c hc)]

/-- C1 counterexample: on input "deep" the code resolves Deepgram via its
alias "deep gram" (because the *input* is a prefix of the *alias*), while
the claim's rule — the alias being a prefix of the input — accepts no
candidate and returns no provider. -/
theorem resolveProviderMatch_claim_false :
    resolveProviderMatch "deep" =
        some { provider := "Deepgram", matchedAlias := "deep gram" } ∧
    resolveProviderMatchClaim "deep" = none := by decide

/-- C1 witness: a two-character normalized input resolves to no provider. -/
theorem resolveProviderMatch_spec_witness :
    resolveProviderMatch "ab" = none ∧
    resolveProviderMatch "deep" = resolveProviderMatchAmended "deep" :=
  ⟨resolveProviderMatch_spec.1 "ab" (by decide),
   resolveProviderMatch_spec.2 "deep"⟩

lemma stemLanguage_mem (n l : String) (h : stemLanguage n = some l) :
    l ∈ SUPPORTED_LANGUAGES := by
  unfold stemLanguage at h
  split at h
  · exact List.mem_of_find?_eq_some h
  · exact absurd h (by simp)

lemma aliasLanguage_mem (n l : String) (h : aliasLanguage n = some l) :
    l ∈ SUPPORTED_LANGUAGES := by
  unfold aliasLanguage at h
  cases hf : (LANGUAGE_ALIASES.map Prod.fst).find? (fun lang =>
      (langAliases lang).any (fun a => n = normalizeTerm a)) with
  | none => rw [hf] at h; exact absurd h (by simp)
  | some k =>
    rw [hf] at h
    simp only [Option.map_some'] at h
    have hk : k ∈ LANGUAGE_ALIASES.map Prod.fst := List.mem_of_find?_eq_some hf
    have hsome : (SUPPORTED_LANGUAGES.find? (fun lang => normalizeTerm lang = k)).isSome = true := by
      have hallk : (LANGUAGE_ALIASES.map Prod.fst).all (fun key =>
          (SUPPORTED_LANGUAGES.find? (fun lang => normalizeTerm lang = key)).isSome) = true := by
        decide
      exact List.all_eq_true.mp hallk k hk
    cases hfind : SUPPORTED_LANGUAGES.find? (fun lang => normalizeTerm lang = k) with
    | none => rw [hfind] at hsome; exact absurd hsome (by simp)
    | some x =>
      rw [hfind] at h
      simp only [Option.getD_some, Option.some.injEq] at h
      rw [← h]
      exact List.mem_of_find?_eq_some hfind

/-- C10: `resolveLanguage` returns nothing or a member of
`SUPPORTED_LANGUAGES` in its canonical spelling; the two-character alias
codes "en", "th", "ja" resolve (alias matching has no minimum length),
while the prefix-matching stage contributes only for normalized inputs of
length at least 3 — shorter inputs are decided by the exact and alias
stages alone. -/
theorem resolveLanguage_spec :
    (∀ (input l : String), resolveLanguage input = some l → l ∈ SUPPORTED_LANGUAGES)
    ∧ resolveLanguage "en" = some "English"
    ∧ resolveLanguage "th" = some "Thai"
    ∧ resolveLanguage "ja" = some "Japanese"
    ∧ (∀ input : String, (normalizeTerm input).length < MIN_LANGUAGE_PREFIX_LENGTH →
        resolveLanguage input =
          (if normalizeTerm input = "" then none
           else match directLanguage (normalizeTerm input) with
             | some direct => some direct
             | none => aliasLanguage (normalizeTerm input))) := by
  refine ⟨?_, by decide, by decide, by decide, ?_⟩
  · intro input l h
    simp only [resolveLanguage] at h
    split at h
    · exact absurd h (by simp)
    · split at h
      · rename_i direct heq
        rw [Option.some.injEq] at h
        rw [← h]
        exact List.mem_of_find?_eq_some heq
      · split at h
        · rename_i canonical heq
          rw [Option.some.injEq] at h
          rw [← h]
          exact aliasLanguage_mem _ _ heq
        · exact stemLanguage_mem _ _ h
  · intro input hlen
    have hstem : stemLanguage (normalizeTerm input) = none := by
      unfold stemLanguage
      rw [if_neg (by omega)]
    by_cases hn : normalizeTerm input = ""
    · simp [resolveLanguage, hn]
    · simp only [resolveLanguage, if_neg hn]
      cases hd : directLanguage (normalizeTerm input) with
      | some direct => rfl
      | none =>
        cases ha : aliasLanguage (normalizeTerm input) with
        | some canonical => rfl
        | none => exact hstem

/-- C10 witness: "en" resolves to the canonical member "English", and a
two-character input is decided without the prefix stage. -/
theorem resolveLanguage_spec_witness :
    "English" ∈ SUPPORTED_LANGUAGES ∧
    resolveLanguage "vi" =
      (if normalizeTerm "vi" = "" then none
       else match directLanguage (normalizeTerm "vi") with
         | some direct => some direct
         | none => aliasLanguage (normalizeTerm "vi")) :=
  ⟨resolveLanguage_spec.1 "en" "English" (by decide),
   resolveLanguage_spec.2.2.2.2 "vi" (by decide)⟩

/-- C4: `parseComboInput` succeeds exactly when splitting on `+`/`,`/`->`
(with surrounding whitespace), trimming, and discarding empty segments
leaves exactly three segments, each of which resolves to a provider; the
three parses are taken as STT, LLM, TTS in order, every kept segment is
non-empty, and any other segment count or unresolvable segment yields
`none` (the embedding is total — nothing is thrown). -/
theorem parseComboInput_spec :
    ∀ desc : String,
      ((parseComboInput desc).isSome ↔
        ((comboSegments desc).length = 3 ∧
          ∀ seg ∈ comboSegments desc, (parseProviderWithModel seg).isSome))
      ∧ (∀ seg ∈ comboSegments desc, seg ≠ "")
      ∧ (∀ combo : ParsedCombo, parseComboInput desc = some combo →
          ∃ s l t, comboSegments desc = [s, l, t] ∧
            parseProviderWithModel s = some combo.stt ∧
            parseProviderWithModel l = some combo.llm ∧
            parseProviderWithModel t = some combo.tts) := by
  intro desc
  refine ⟨?_, ?_, ?_⟩
  · cases h0 : comboSegments desc with
    | nil => simp [parseComboInput, h0]
    | cons a t0 =>
      cases t0 with
      | nil => simp [parseComboInput, h0]
      | cons b t1 =>
        cases t1 with
        | nil => simp [parseComboInput, h0]
        | cons c t2 =>
          cases t2 with
          | cons d t3 =>
            simp only [parseComboInput, h0, List.length_cons]
            constructor
            · intro hco
              exact absurd hco (by simp)
            · intro ⟨hlen, _⟩
              omega
          | nil =>
            simp only [parseComboInput, h0, List.length_cons, List.length_nil]
            cases hstt : parseProviderWithModel a <;>
              cases hllm : parseProviderWithModel b <;>
              cases htts : parseProviderWithModel c <;>
              simp_all
  · intro seg hseg
    simp only [comboSegments, List.mem_map, List.mem_filter] at hseg
    obtain ⟨cs, ⟨_, hne⟩, rfl⟩ := hseg
    intro hcon
    have hnil : cs = [] := by simpa using congrArg String.data hcon
    rw [hnil] at hne
    simp at hne
  · intro combo hsome
    cases h0 : comboSegments desc with
    | nil => simp only [parseComboInput, h0] at hsome; exact Option.noConfusion hsome
    | cons a t0 =>
      cases t0 with
      | nil => simp only [parseComboInput, h0] at hsome; exact Option.noConfusion hsome
      | cons b t1 =>
        cases t1 with
        | nil => simp only [parseComboInput, h0] at hsome; exact Option.noConfusion hsome
        | cons c t2 =>
          cases t2 with
          | cons d t3 =>
            simp only [parseComboInput, h0] at hsome
            exact Option.noConfusion hsome
          | nil =>
            simp only [parseComboInput, h0] at hsome
            refine ⟨a, b, c, rfl, ?_⟩
            cases hstt : parseProviderWithModel a with
            | none => simp only [hstt] at hsome; exact Option.noConfusion hsome
            | some stt =>
              cases hllm : parseProviderWithModel b with
              | none => simp only [hstt, hllm] at hsome; exact Option.noConfusion hsome
              | some llm =>
                cases htts : parseProviderWithModel c with
                | none => simp only [hstt, hllm, htts] at hsome; exact Option.noConfusion hsome
                | some tts =>
                  simp only [hstt, hllm, htts, Option.some.injEq] at hsome
                  rw [← hsome]
                  exact ⟨rfl, rfl, rfl⟩

/-- C4 witness: the spec instantiated on a concrete well-formed combo and
its parse. -/
theorem parseComboInput_spec_witness :
    ∃ s l t, comboSegments "Deepgram + OpenAI + Cartesia" = [s, l, t] ∧
      parseProviderWithModel s = some { provider := "Deepgram", model := none } ∧
      parseProviderWithModel l = some { provider := "OpenAI", model := none } ∧
      parseProviderWithModel t = some { provider := "Cartesia", model := none } :=
  (parseComboInput_spec "Deepgram + OpenAI + Cartesia").2.2
    { stt := { provider := "Deepgram", model := none },
      llm := { provider := "OpenAI", model := none },
      tts := { provider := "Cartesia", model := none } } (by decide)

lemma mem_rankBenchmarks {l : List BenchmarkEntry} {w : ScoreWeights} {r : Ranked}
    (h : r ∈ rankBenchmarks l w) : ∃ e ∈ l, r = toRanked w e := by
  have hperm := List.perm_insertionSort rankedLE (l.map (toRanked w))
  have hm : r ∈ l.map (toRanked w) := hperm.mem_iff.mp h
  obtain ⟨e, he, heq⟩ := List.mem_map.mp hm
  exact ⟨e, he, heq.symm⟩

lemma sixFields_inj_on_data {e1 e2 : BenchmarkEntry} (h1 : e1 ∈ BENCHMARK_DATA)
    (h2 : e2 ∈ BENCHMARK_DATA) (h : sixFields e1 = sixFields e2) : e1 = e2 := by
  have hnodup : (BENCHMARK_DATA.map sixFields).Nodup := by decide
  exact List.inj_on_of_nodup_map hnodup h1 h2 h

lemma sorted_head_min {x : Ranked} {t : List Ranked}
    (hs : List.Sorted rankedLE (x :: t)) : ∀ r ∈ x :: t, rankedLE x r := by
  intro r hr
  rcases List.mem_cons.mp hr with rfl | hr
  · exact le_refl (lexKey r)
  · exact List.rel_of_sorted_cons hs r hr

/-- C6: whenever the scaffold engine reaches a selection (the language
filter is non-empty and some ranked row is framework-compatible), the
selected row is the first — hence, by sortedness, best-ranked — compatible
row, and the fallback notice is produced if and only if the selected row
differs from the globally top-ranked row AND their score difference
exceeds 2.0 points. -/
theorem scaffold_fallback_spec :
    ∀ (language use_case : String) (framework : ScaffoldFramework) (rl : String)
      (best topPick : Ranked) (notice : Bool),
      resolveLanguage language = some rl →
      scaffoldOutcome language use_case framework = .ok best topPick notice →
      ((rankBenchmarks (languageFilter rl)
          (getUseCaseWeights (resolveUseCase use_case))).filter
            (fun r => isScaffoldCompatible r.toBenchmarkEntry framework)).head? = some best
      ∧ (rankBenchmarks (languageFilter rl)
          (getUseCaseWeights (resolveUseCase use_case))).head? = some topPick
      ∧ isScaffoldCompatible best.toBenchmarkEntry framework = true
      ∧ (∀ r ∈ (rankBenchmarks (languageFilter rl)
            (getUseCaseWeights (resolveUseCase use_case))).filter
              (fun r => isScaffoldCompatible r.toBenchmarkEntry framework), rankedLE best r)
      ∧ (notice = true ↔ best ≠ topPick ∧ 2 < |topPick.score - best.score|) := by
  intro language use_case framework rl best topPick notice hrl hok
  simp only [scaffoldOutcome, hrl] at hok
  by_cases hm : (languageFilter rl).isEmpty
  · rw [if_pos hm] at hok
    exact absurd hok (by simp)
  · rw [if_neg hm] at hok
    cases hsc : (rankBenchmarks (languageFilter rl)
        (getUseCaseWeights (resolveUseCase use_case))).filter
          (fun r => isScaffoldCompatible r.toBenchmarkEntry framework) with
    | nil =>
      rw [hsc] at hok
      simp only [List.head?_nil] at hok
      exact absurd hok (by simp)
    | cons b rest =>
      rw [hsc] at hok
      simp only [List.head?_cons] at hok
      cases hrk : (rankBenchmarks (languageFilter rl)
          (getUseCaseWeights (resolveUseCase use_case))).head? with
      | none =>
        rw [hrk] at hok
        exact absurd hok (by simp)
      | some tp =>
        rw [hrk] at hok
        simp only [ScaffoldOutcome.ok.injEq] at hok
        obtain ⟨hb, htp, hn⟩ := hok
        subst hb
        subst htp
        subst hn
        have hscs : List.Sorted rankedLE (b :: rest) := by
          rw [← hsc]
          exact (List.sorted_insertionSort rankedLE _).filter _
        have hbmem : b ∈ (rankBenchmarks (languageFilter rl)
            (getUseCaseWeights (resolveUseCase use_case))).filter
              (fun r => isScaffoldCompatible r.toBenchmarkEntry framework) := by
          rw [hsc]
          exact List.mem_cons_self _ _
        have hbrank : b ∈ rankBenchmarks (languageFilter rl)
            (getUseCaseWeights (resolveUseCase use_case)) :=
          (List.mem_filter.mp hbmem).1
        have htrank : tp ∈ rankBenchmarks (languageFilter rl)
            (getUseCaseWeights (resolveUseCase use_case)) := by
          cases hr0 : rankBenchmarks (languageFilter rl)
              (getUseCaseWeights (resolveUseCase use_case)) with
          | nil =>
            rw [hr0] at hrk
            exact absurd hrk (by simp)
          | cons x xs =>
            rw [hr0] at hrk
            simp only [List.head?_cons, Option.some.injEq] at hrk
            rw [← hrk]
            exact List.mem_cons_self _ _
        have hsix : sixFields tp.toBenchmarkEntry = sixFields b.toBenchmarkEntry ↔ tp = b := by
          obtain ⟨e1, he1, hb1⟩ := mem_rankBenchmarks hbrank
          obtain ⟨e2, he2, ht2⟩ := mem_rankBenchmarks htrank
          have he1d : e1 ∈ BENCHMARK_DATA := (List.mem_filter.mp he1).1
          have he2d : e2 ∈ BENCHMARK_DATA := (List.mem_filter.mp he2).1
          subst hb1
          subst ht2
          constructor
          · intro h
            have he : e2 = e1 := sixFields_inj_on_data he2d he1d h
            rw [he]
          · intro h
            rw [h]
        refine ⟨rfl, rfl, (List.mem_filter.mp hbmem).2, sorted_head_min hscs, ?_⟩
        rw [decide_eq_true_iff, jsAbs_eq_abs]
        constructor
        · rintro ⟨h6, hd⟩
          refine ⟨?_, hd⟩
          intro heq
          exact h6 (hsix.mpr heq.symm)
        · rintro ⟨hne, hd⟩
          refine ⟨?_, hd⟩
          intro h6
          exact hne (hsix.mp h6).symm

set_option maxRecDepth 10000 in
/-- C6 witness: scaffolding Korean customer support with the Next.js
framework selects the premium ElevenLabs row (the only compatible one),
the top-ranked row is a Cartesia stack, and since the score gap (76 vs 43)
exceeds 2.0, the fallback notice is produced. -/
theorem scaffold_fallback_spec_witness :
    true = true ↔ (koreanBest ≠ koreanTop ∧ 2 < |koreanTop.score - koreanBest.score|) :=
  (scaffold_fallback_spec "Korean" "customer support" ScaffoldFramework.nextjs "Korean"
    koreanBest koreanTop true (by decide) (by with_unfolding_all decide)).2.2.2.2

/-- C5 witness: a fully known stack raises no model warning, and its
validate outcome coincides across output formats. -/
theorem outputFormat_noninterference_witness :
    validateOutcome
        { stt_provider := "Deepgram", stt_model := "nova-3",
          llm_provider := "OpenAI", llm_model := "gpt-4.1-mini",
          tts_provider := "Cartesia", tts_model := "sonic-3" } OutputFormat.json =
      validateOutcome
        { stt_provider := "Deepgram", stt_model := "nova-3",
          llm_provider := "OpenAI", llm_model := "gpt-4.1-mini",
          tts_provider := "Cartesia", tts_model := "sonic-3" } OutputFormat.markdown :=
  outputFormat_noninterference.2 _ OutputFormat.json OutputFormat.markdown (by decide)

lemma rankedBefore_asymm_of_latency_ne (a b : Ranked) (h : a.latencyMs ≠ b.latencyMs) :
    rankedBefore a b ↔ ¬ rankedBefore b a := by
  rw [← rankedLT_iff_before, ← rankedLT_iff_before]
  constructor
  · intro h1 h2
    exact absurd (lt_trans h1 h2) (lt_irrefl _)
  · intro h1
    rcases lt_trichotomy (lexKey a) (lexKey b) with hlt | heq | hgt
    · exact hlt
    · exfalso
      have hk : rankedKey a = rankedKey b := (lexKey_eq_iff a b).mp heq
      simp only [rankedKey, Prod.mk.injEq] at hk
      exact h hk.2.1
    · exact absurd hgt h1

lemma latency_inj_on_data {e1 e2 : BenchmarkEntry} (h1 : e1 ∈ BENCHMARK_DATA)
    (h2 : e2 ∈ BENCHMARK_DATA) (h : e1.latencyMs = e2.latencyMs) : e1 = e2 := by
  have hnodup : (BENCHMARK_DATA.map (fun e => e.latencyMs)).Nodup := by
    with_unfolding_all decide
  exact List.inj_on_of_nodup_map hnodup h1 h2 h

/-- C3: for every entry list and weight triple, `rankBenchmarks` returns a
permutation of the scored entries ordered by score descending with ties
broken by latency ascending, then quality descending, then cost ascending;
re-running it on the same input yields the same list, and on the benchmark
catalog — whose rows have pairwise distinct latencies — the ordering
relation is a strict total order: for two distinct scored rows exactly one
of "A before B" and "B before A" holds. -/
theorem rankBenchmarks_order_spec :
    (∀ (entries : List BenchmarkEntry) (weights : ScoreWeights),
        (rankBenchmarks entries weights).Perm (entries.map (toRanked weights)))
    ∧ (∀ (entries : List BenchmarkEntry) (weights : ScoreWeights),
        List.Sorted (fun a b => rankedBefore a b ∨ rankedKey a = rankedKey b)
          (rankBenchmarks entries weights))
    ∧ (∀ (entries : List BenchmarkEntry) (weights : ScoreWeights),
        rankBenchmarks entries weights = rankBenchmarks entries weights)
    ∧ (∀ weights : ScoreWeights, ∀ a ∈ BENCHMARK_DATA.map (toRanked weights),
        ∀ b ∈ BENCHMARK_DATA.map (toRanked weights), a ≠ b →
          (rankedBefore a b ↔ ¬ rankedBefore b a)) := by
  refine ⟨?_, ?_, fun _ _ => rfl, ?_⟩
  · intro entries weights
    exact List.perm_insertionSort rankedLE _
  · intro entries weights
    have hs := List.sorted_insertionSort rankedLE (entries.map (toRanked weights))
    exact hs.imp fun h => (rankedLE_iff _ _).mp h
  · intro weights a ha b hb hne
    obtain ⟨ea, hea, rfl⟩ := List.mem_map.mp ha
    obtain ⟨eb, heb, rfl⟩ := List.mem_map.mp hb
    apply rankedBefore_asymm_of_latency_ne
    intro hlat
    exact hne (congrArg (toRanked weights) (latency_inj_on_data hea heb hlat))

/-- C3 witness: the strict-order dichotomy instantiated at two concrete
scored catalog rows under the default weights. -/
theorem rankBenchmarks_order_spec_witness :
    rankedBefore rankedA rankedB ↔ ¬ rankedBefore rankedB rankedA :=
  rankBenchmarks_order_spec.2.2.2 DEFAULT_WEIGHTS
    rankedA (List.mem_map_of_mem _ (List.get_mem _ _ _))
    rankedB (List.mem_map_of_mem _ (List.get_mem _ _ _))
    (by with_unfolding_all decide)

end VoiceForge
